import Mathlib

/-!
Task tracker: the durable record store of `src/index.js`.

A shallow embedding of the store in `src/index.js` (sanitizeInput, validateTask,
readTasks, writeTasks, generateSecureId, addTask, updateTaskStatus, deleteTask)
together with theorems about it.

Modelling conventions, each visible in the definitions below:

* A JavaScript string is a Lean `String`; `.length` counts UTF-16 code units
  (`jsLength`), so a character outside the basic plane counts twice.
* A parsed JSON document is a `Json` value.  `undefined` (a missing property or a
  missing argument) is `none : Option Json`.
* A JSON number is an exact integer or an exact non-integer rational.  The program
  does arithmetic only on ids; `maxId + 1` is rounded to the nearest binary64 value
  as JavaScript does (`roundToDouble`).
* The two files the program touches are the fields `data` (tasks.json) and `temp`
  (.tasks.tmp.json) of `World`.  A file's text is kept as the JSON value it denotes
  (`Content.json`) or as text that `JSON.parse` rejects (`Content.malformed`), so
  `JSON.parse (JSON.stringify v)` is `v`.  File modes are not modelled and the only
  file-system failure is the absent file (ENOENT).
* `Date.parse` is a library function outside the repository; it enters as the
  parameter `dateOk`, true exactly when `Date.parse` does not return NaN.
* Every operation returns its outcome together with the world it leaves behind,
  also when it throws.
-/

namespace TaskTracker

/-! ## Values -/

/-- A finite JavaScript number as JSON text denotes it. -/
inductive JNum
  | int (z : Int)
  | frac (q : ℚ)
deriving DecidableEq

/-- A value produced by `JSON.parse`. -/
inductive Json
  | null
  | bool (b : Bool)
  | num (x : JNum)
  | str (s : String)
  | arr (items : List Json)
  | obj (fields : List (String × Json))

/-- Property read `v.key` for the keys the program uses; `none` is `undefined`.
Reading a property of `null` throws and is handled by the caller. -/
def Json.get (v : Json) (key : String) : Option Json :=
  match v with
  | .obj fields => fields.lookup key
  | _ => none

/-- An argument as the callers in the repository pass it: absent, a string (the
command line), or a non-negative integer literal (the tests). -/
inductive Arg
  | undefined
  | str (s : String)
  | num (n : Nat)
deriving DecidableEq

/-- JavaScript truthiness negated: `!x`. -/
def Arg.falsy : Arg → Bool
  | .undefined => true
  | .str s => s.data.isEmpty
  | .num n => n == 0

/-! ## Strings -/

/-- Number of UTF-16 code units of one character. -/
def utf16Units (c : Char) : Nat := if c.toNat < 0x10000 then 1 else 2

/-- The `.length` of a JavaScript string. -/
def jsLength (s : String) : Nat := (s.data.map utf16Units).sum

/-- White space and line terminators, the characters `String.prototype.trim` and
`parseInt` skip. -/
def isJsSpace (c : Char) : Bool :=
  let n := c.toNat
  n == 0x09 || n == 0x0A || n == 0x0B || n == 0x0C || n == 0x0D || n == 0x20 ||
  n == 0xA0 || n == 0x1680 || (0x2000 ≤ n && n ≤ 0x200A) || n == 0x2028 ||
  n == 0x2029 || n == 0x202F || n == 0x205F || n == 0x3000 || n == 0xFEFF

/-- Characters of the class `[\x00-\x08\x0B\x0C\x0E-\x1F\x7F]`. -/
def isControl (c : Char) : Bool :=
  let n := c.toNat
  n ≤ 0x08 || n == 0x0B || n == 0x0C || (0x0E ≤ n && n ≤ 0x1F) || n == 0x7F

/-- The method `trim` on the characters of a string. -/
def jsTrim (cs : List Char) : List Char :=
  ((cs.dropWhile isJsSpace).reverse.dropWhile isJsSpace).reverse

/-- The replacement `.replace(/<[^>]*>/g, '')`, scanning left to right.  Outside a
match, a `<` starts a match exactly when a `>` occurs later (the match then runs to
the first such `>`); `inTag` is true while inside a match. -/
def stripTags : Bool → List Char → List Char
  | _, [] => []
  | true, c :: cs => if c = '>' then stripTags false cs else stripTags true cs
  | false, c :: cs =>
    if c = '<' ∧ '>' ∈ cs then stripTags true cs else c :: stripTags false cs

/-- The replacement `.replace(/[\x00-\x08\x0B\x0C\x0E-\x1F\x7F]/g, '')`. -/
def stripControl (cs : List Char) : List Char := cs.filter (fun c => !isControl c)

/-- Source: `sanitizeInput`. -/
def sanitizeInput : Arg → String
  | .str s => String.mk (jsTrim (stripControl (stripTags false s.data)))
  | _ => ""

/-! ## Numbers -/

/-- Number of binary digits of `n`, by halving at most `fuel` times. -/
def bitLenAux : Nat → Nat → Nat
  | 0, _ => 0
  | fuel + 1, n => if n = 0 then 0 else bitLenAux fuel (n / 2) + 1

/-- Number of binary digits of `n`. -/
def bitLen (n : Nat) : Nat := bitLenAux n n

/-- The binary64 value nearest to the natural number `n`, ties to the even
significand, with unbounded exponent: integers up to `2^53` are exact, a larger one
keeps its 53 leading bits. -/
def roundToDouble (n : Nat) : Nat :=
  if n ≤ 2 ^ 53 then n
  else
    let ulp := 2 ^ (bitLen n - 53)
    let q := n / ulp
    let r := n % ulp
    if 2 * r < ulp then q * ulp
    else if ulp < 2 * r then (q + 1) * ulp
    else if q % 2 = 0 then q * ulp
    else (q + 1) * ulp

/-- The sum `n + 1` of JavaScript numbers, for a non-negative integer `n`. -/
def jsAddOne (n : Nat) : Nat := roundToDouble (n + 1)

/-- Decimal digits of `n`, most significant first, by dividing at most `fuel`
times. -/
def decDigitsAux : Nat → Nat → List Nat → List Nat
  | 0, _, acc => acc
  | fuel + 1, n, acc =>
    if n < 10 then n :: acc else decDigitsAux fuel (n / 10) (n % 10 :: acc)

/-- Decimal digits of `n`, most significant first. -/
def decDigits (n : Nat) : List Nat := decDigitsAux (n + 1) n []

/-- The characters of a list of decimal digits. -/
def digitChars (ds : List Nat) : List Char := ds.map (fun d => Char.ofNat (48 + d))

/-- The pairs `(s, n)` with `k` digits in `s` for which `s × 10^(n-k)` is the
number `x`, as Number::toString asks for. -/
def expCandidates (x k : Nat) : List (Nat × Nat) :=
  let len := (decDigits x).length
  let raw := [(x / 10 ^ (len - k), len), (x / 10 ^ (len - k) + 1, len),
    (x / 10 ^ (len + 1 - k), len + 1), (x / 10 ^ (len + 1 - k) + 1, len + 1)]
  raw.filter fun p =>
    10 ^ (k - 1) ≤ p.1 && p.1 < 10 ^ k && roundToDouble (p.1 * 10 ^ (p.2 - k)) == x

/-- Of two candidates the one whose value is closer to `x`, the even `s` on a tie. -/
def closerTo (x k : Nat) (a b : Nat × Nat) : Nat × Nat :=
  let da := Int.natAbs ((a.1 * 10 ^ (a.2 - k) : Int) - x)
  let db := Int.natAbs ((b.1 * 10 ^ (b.2 - k) : Int) - x)
  if da < db then a else if db < da then b else if a.1 % 2 = 0 then a else b

/-- The best candidate with `k` digits, if there is one. -/
def bestCandidate (x k : Nat) : Option (Nat × Nat) :=
  match expCandidates x k with
  | [] => none
  | c :: cs => some (cs.foldl (closerTo x k) c)

/-- Number::toString for a non-negative integer: decimal digits below `10^21`,
otherwise the shortest digit string that reads back as the number, in exponent
form. -/
def numberToString (x : Nat) : List Char :=
  if x < 10 ^ 21 then digitChars (decDigits x)
  else
    let best := ((List.range 17).findSome? fun i => bestCandidate x (i + 1)).getD
      (x, (decDigits x).length)
    let expo := '+' :: digitChars (decDigits (best.2 - 1))
    match decDigits best.1 with
    | [] => []
    | [d] => digitChars [d] ++ 'e' :: expo
    | d :: ds => digitChars [d] ++ '.' :: digitChars ds ++ 'e' :: expo

/-- The string an argument is converted to (ToString). -/
def Arg.toChars : Arg → List Char
  | .undefined => "undefined".data
  | .str s => s.data
  | .num n => numberToString n

/-- A result of `parseInt`. -/
inductive JsInt
  | nan
  | inf (neg : Bool)
  | int (z : Int)
deriving DecidableEq

/-- The value of a character as a digit, letters counting from ten. -/
def digitValue (c : Char) : Option Nat :=
  let n := c.toNat
  if 48 ≤ n ∧ n ≤ 57 then some (n - 48)
  else if 97 ≤ n ∧ n ≤ 122 then some (n - 87)
  else if 65 ≤ n ∧ n ≤ 90 then some (n - 55)
  else none

/-- The longest run of leading digits in the given radix. -/
def takeDigits (radix : Nat) : List Char → List Nat
  | [] => []
  | c :: cs =>
    match digitValue c with
    | some d => if d < radix then d :: takeDigits radix cs else []
    | none => []

/-- The function `parseInt` without a radix argument, on the characters of its
already converted argument: leading white space, a sign, a `0x` mark, then the
longest run of digits, rounded to a binary64 value; a value with more than 1024
binary digits, that is `2^1024` or more, is Infinity. -/
def parseIntChars (cs : List Char) : JsInt :=
  let s := cs.dropWhile isJsSpace
  let neg := s.head? == some '-'
  let s := if s.head? == some '-' || s.head? == some '+' then s.tail else s
  let hex := match s with
    | '0' :: 'x' :: _ => true
    | '0' :: 'X' :: _ => true
    | _ => false
  let radix := if hex then 16 else 10
  let s := if hex then s.drop 2 else s
  let ds := takeDigits radix s
  if ds.isEmpty then .nan
  else
    let m := roundToDouble (ds.foldl (fun a d => a * radix + d) 0)
    if 1024 < bitLen m then .inf neg else .int (if neg then -(m : Int) else m)

/-- The call `parseInt(id)`. -/
def parseInt (id : Arg) : JsInt := parseIntChars id.toChars

/-- The test `isNaN(x)` on a result of `parseInt`. -/
def JsInt.isNaN : JsInt → Bool
  | .nan => true
  | _ => false

/-- The comparison `t.id === parseInt(id)`. -/
def strictEqId : Option Json → JsInt → Bool
  | some (.num (.int z)), .int p => z == p
  | _, _ => false

/-- Source: `Math.max(max, task.id)` reads `task.id`.  The function is called only
on what readTasks returned, where every id passed validateTask and is a positive
integer; on such a record this is that integer. -/
def idNat (task : Json) : Nat :=
  match task.get "id" with
  | some (.num (.int z)) => z.toNat
  | _ => 0

/-! ## Record validation -/

/-- The test `typeof x !== 'number' || x <= 0 || !Number.isInteger(x)`. -/
def idInvalid : Option Json → Bool
  | some (.num (.int z)) => decide (z ≤ 0)
  | some (.num (.frac _)) => true
  | _ => true

/-- The test `typeof x !== 'string' || x.trim().length === 0`. -/
def descriptionInvalid : Option Json → Bool
  | some (.str s) => jsLength (String.mk (jsTrim s.data)) == 0
  | _ => true

/-- The test `!['todo', 'in-progress', 'done'].includes(x)`. -/
def statusInvalid : Option Json → Bool
  | some (.str s) => !(["todo", "in-progress", "done"].contains s)
  | _ => true

/-- Source: `validateTask`.  The parameter `dateOk x` stands for
`!isNaN(Date.parse(x))`. -/
def validateTask (dateOk : Option Json → Bool) (task : Json) : Except String Unit :=
  match task with
  | .null => .error "TypeError: Cannot read properties of null (reading 'id')"
  | _ =>
    if idInvalid (task.get "id") then .error "Invalid task ID"
    else if descriptionInvalid (task.get "description") then
      .error "Invalid task description"
    else if statusInvalid (task.get "status") then .error "Invalid task status"
    else if !dateOk (task.get "createdAt") || !dateOk (task.get "updatedAt") then
      .error "Invalid task timestamps"
    else .ok ()

/-! ## The store files -/

/-- The text of a file, up to what `JSON.parse` makes of it. -/
inductive Content
  | json (v : Json)
  | malformed (text : String)

/-- The working directory and the two files of the store; `none` is an absent
file. -/
structure World where
  cwd : String
  data : Option Content
  temp : Option Content

/-- Source: `DATA_FILE`, the path `path.join(process.cwd(), 'tasks.json')`. -/
def DATA_FILE (w : World) : String := w.cwd ++ "/tasks.json"

/-- Source: `TEMP_FILE`. -/
def TEMP_FILE (w : World) : String := w.cwd ++ "/.tasks.tmp.json"

/-- Source: `validateFilePath`; the paths it is given are absolute, so
`path.resolve` returns them as they are. -/
def validateFilePath (w : World) (filePath : String) : Except String String :=
  if !(w.cwd.data.isPrefixOf filePath.data) then
    .error "Invalid file path: Access denied"
  else .ok filePath

/-- The comparison `Set.prototype.has` makes (SameValueZero): primitives by value,
arrays and objects by identity, and no two parsed objects are identical. -/
def sameValueZero : Option Json → Option Json → Bool
  | none, none => true
  | some .null, some .null => true
  | some (.bool a), some (.bool b) => a == b
  | some (.num a), some (.num b) => a == b
  | some (.str a), some (.str b) => a == b
  | _, _ => false

/-- The body of `tasks.forEach` in readTasks, with `ids` the set built so far. -/
def checkTasks (dateOk : Option Json → Bool) :
    List (Option Json) → List Json → Except String Unit
  | _, [] => .ok ()
  | ids, task :: rest =>
    match validateTask dateOk task with
    | .error e => .error e
    | .ok _ =>
      if ids.any (sameValueZero (task.get "id")) then
        .error "Duplicate task ID found"
      else checkTasks dateOk (task.get "id" :: ids) rest

/-- Source: `readTasks`. -/
def readTasks (dateOk : Option Json → Bool) (w : World) :
    Except String (List Json) × World :=
  match validateFilePath w (DATA_FILE w) with
  | .error e => (.error e, w)
  | .ok _ =>
    match w.data with
    | none => (.ok [], { w with data := some (.json (.arr [])) })
    | some (.malformed _) => (.error "Failed to parse tasks JSON", w)
    | some (.json (.arr tasks)) =>
      match checkTasks dateOk [] tasks with
      | .error e => (.error e, w)
      | .ok _ => (.ok tasks, w)
    | some (.json .null) =>
      (.error "TypeError: Cannot read properties of null (reading 'forEach')", w)
    | some (.json _) => (.error "TypeError: tasks.forEach is not a function", w)

/-- The call `tasks.forEach(validateTask)` in writeTasks. -/
def validateAll (dateOk : Option Json → Bool) : List Json → Except String Unit
  | [] => .ok ()
  | task :: rest =>
    match validateTask dateOk task with
    | .error e => .error e
    | .ok _ => validateAll dateOk rest

/-- Source: `writeTasks`.  The staging file is written, read back and renamed onto
the data file.  The read-back returns what was just written, so the comparison
`readBack !== tempContent` is false and 'Data verification failed' is not raised. -/
def writeTasks (dateOk : Option Json → Bool) (w : World) (tasks : Json) :
    Except String Unit × World :=
  match tasks with
  | .arr items =>
    match validateAll dateOk items with
    | .error e => (.error e, w)
    | .ok _ =>
      match validateFilePath w (DATA_FILE w) with
      | .error e => (.error e, w)
      | .ok _ =>
        match validateFilePath w (TEMP_FILE w) with
        | .error e => (.error e, w)
        | .ok _ =>
          let tempContent := Content.json (.arr items)
          let staged : World := { w with temp := some tempContent }
          (.ok (), { staged with data := staged.temp, temp := none })
  | _ => (.error "Invalid tasks data", w)

/-! ## Record operations -/

/-- Source: `MAX_DESCRIPTION_LENGTH`. -/
def MAX_DESCRIPTION_LENGTH : Nat := 1000

/-- Source: `generateSecureId`. -/
def generateSecureId (tasks : List Json) : Nat :=
  let maxId := tasks.foldl (fun max task => Nat.max max (idNat task)) 0
  jsAddOne maxId

/-- The test `typeof x !== 'string'`. -/
def Arg.notString : Arg → Bool
  | .str _ => false
  | _ => true

/-- The object literal `newTask` of addTask. -/
def newTask (newId : Nat) (sanitizedDescription created updated : String) : Json :=
  .obj [("id", .num (.int newId)), ("description", .str sanitizedDescription),
    ("status", .str "todo"), ("createdAt", .str created), ("updatedAt", .str updated)]

/-- Source: `addTask`.  `created` and `updated` are the two results of
`new Date().toISOString()`; the value returned on success is the id the function
prints. -/
def addTask (dateOk : Option Json → Bool) (created updated : String) (w : World)
    (description : Arg) : Except String Nat × World :=
  if description.falsy || description.notString then
    (.error "Task description is required", w)
  else
    let sanitizedDescription := sanitizeInput description
    if jsLength sanitizedDescription == 0 then
      (.error "Task description cannot be empty", w)
    else if jsLength sanitizedDescription > MAX_DESCRIPTION_LENGTH then
      (.error "Task description too long (max 1000 characters)", w)
    else
      match readTasks dateOk w with
      | (.error e, w1) => (.error e, w1)
      | (.ok tasks, w1) =>
        let newId := generateSecureId tasks
        let task := newTask newId sanitizedDescription created updated
        match writeTasks dateOk w1 (.arr (tasks ++ [task])) with
        | (.error e, w2) => (.error e, w2)
        | (.ok _, w2) => (.ok newId, w2)

/-- Source: `deleteTask`. -/
def deleteTask (dateOk : Option Json → Bool) (w : World) (id : Arg) :
    Except String Unit × World :=
  if id.falsy || (parseInt id).isNaN then (.error "Valid task ID is required", w)
  else
    match readTasks dateOk w with
    | (.error e, w1) => (.error e, w1)
    | (.ok tasks, w1) =>
      let taskIndex := tasks.findIdx fun t => strictEqId (t.get "id") (parseInt id)
      if taskIndex = tasks.length then (.error "Task not found", w1)
      else
        match writeTasks dateOk w1 (.arr (tasks.eraseIdx taskIndex)) with
        | (.error e, w2) => (.error e, w2)
        | (.ok _, w2) => (.ok (), w2)

/-- The assignment `obj[key] = x` on the own properties of an object: an existing
key keeps its place, a new key goes last. -/
def setField (key : String) (x : Json) : List (String × Json) → List (String × Json)
  | [] => [(key, x)]
  | (k, v) :: rest =>
    if k == key then (k, x) :: rest else (k, v) :: setField key x rest

/-- The assignment `v.key = x`.  The program assigns only to a record that
`tasks.find` returned, which is an object. -/
def Json.set (v : Json) (key : String) (x : Json) : Json :=
  match v with
  | .obj fields => .obj (setField key x fields)
  | other => other

/-- Source: `validStatuses` in updateTaskStatus. -/
def validStatuses : List String := ["todo", "in-progress", "done"]

/-- The test `validStatuses.includes(newStatus)`; only a string can be the same
value as one of the three strings. -/
def Arg.isValidStatus : Arg → Bool
  | .str s => validStatuses.contains s
  | _ => false

/-- An argument as the value an assignment stores.  The program stores only a
status that passed `validStatuses.includes`, which is a string. -/
def Arg.toJson : Arg → Json
  | .str s => .str s
  | .num n => .num (.int n)
  | .undefined => .null

/-- Source: `updateTaskStatus`.  `now` is the result of
`new Date().toISOString()`.  `tasks.find` returns the first record that matches, and
the two assignments change that element of `tasks` in place. -/
def updateTaskStatus (dateOk : Option Json → Bool) (now : String) (w : World)
    (id newStatus : Arg) : Except String Unit × World :=
  if id.falsy || (parseInt id).isNaN then (.error "Valid task ID is required", w)
  else if !newStatus.isValidStatus then
    (.error "Invalid status. Must be: todo, in-progress, or done", w)
  else
    match readTasks dateOk w with
    | (.error e, w1) => (.error e, w1)
    | (.ok tasks, w1) =>
      let index := tasks.findIdx fun t => strictEqId (t.get "id") (parseInt id)
      match tasks[index]? with
      | none => (.error "Task not found", w1)
      | some task =>
        let updated := (task.set "status" newStatus.toJson).set "updatedAt" (.str now)
        match writeTasks dateOk w1 (.arr (tasks.set index updated)) with
        | (.error e, w2) => (.error e, w2)
        | (.ok _, w2) => (.ok (), w2)

/-- Some `<` in the list is followed, anywhere later, by a `>`. -/
def hasTag : List Char → Bool
  | [] => false
  | c :: cs => (c == '<' && cs.contains '>') || hasTag cs

/-! ## Sample data for the concrete instances -/

/-- A decimal digit. -/
def isDigit (c : Char) : Bool := 48 ≤ c.toNat && c.toNat ≤ 57

/-- A stand-in for `Date.parse` in the concrete instances: it accepts the strings
of the shape `toISOString` returns and nothing else. -/
def isoDateOk : Option Json → Bool
  | some (.str s) =>
    match s.data with
    | [y1, y2, y3, y4, '-', m1, m2, '-', d1, d2, 'T', h1, h2, ':', n1, n2, ':',
        s1, s2, '.', f1, f2, f3, 'Z'] =>
      [y1, y2, y3, y4, m1, m2, d1, d2, h1, h2, n1, n2, s1, s2, f1, f2, f3].all isDigit
    | _ => false
  | _ => false

/-- A timestamp as `new Date().toISOString()` returns it. -/
def sampleTime : String := "2024-05-01T10:00:00.000Z"

/-- A record with the five fields of a task. -/
def sampleTask (id : Int) (description status : String) : Json :=
  .obj [("id", .num (.int id)), ("description", .str description),
    ("status", .str status), ("createdAt", .str sampleTime),
    ("updatedAt", .str sampleTime)]

/-- A description of 1001 letters. -/
def longDescription : String := String.mk (List.replicate 1001 'a')

/-- A world whose data file holds the given array and whose staging file is
absent. -/
def sampleWorld (tasks : List Json) : World :=
  { cwd := "/home/user/tracker", data := some (.json (.arr tasks)), temp := none }

/-! ## Lemmas: strings -/

theorem jsTrim_eq (cs : List Char) :
    jsTrim cs = (cs.dropWhile isJsSpace).rdropWhile isJsSpace := rfl

theorem jsTrim_idem (cs : List Char) : jsTrim (jsTrim cs) = jsTrim cs := by
  rw [jsTrim_eq, jsTrim_eq]
  have h : ((cs.dropWhile isJsSpace).rdropWhile isJsSpace).dropWhile isJsSpace
      = (cs.dropWhile isJsSpace).rdropWhile isJsSpace := by
    obtain ⟨t, ht⟩ : (cs.dropWhile isJsSpace).rdropWhile isJsSpace
        <+: cs.dropWhile isJsSpace := List.rdropWhile_prefix _ _
    have hm := List.dropWhile_idempotent (p := isJsSpace) (l := cs)
    generalize (cs.dropWhile isJsSpace).rdropWhile isJsSpace = l at ht ⊢
    cases l with
    | nil => rfl
    | cons a l =>
      rw [← ht] at hm
      simp only [List.cons_append] at hm
      by_cases ha : isJsSpace a = true
      · exfalso
        rw [List.dropWhile_cons_of_pos ha] at hm
        have hlen := congrArg List.length hm
        have hle := (List.dropWhile_sublist (l := l ++ t) isJsSpace).length_le
        simp only [List.length_cons] at hlen
        omega
      · rw [List.dropWhile_cons_of_neg ha]
  rw [h, List.rdropWhile_idempotent]

theorem utf16Units_pos (c : Char) : 0 < utf16Units c := by
  unfold utf16Units
  split <;> omega

theorem jsLength_eq_zero_iff (s : String) : jsLength s = 0 ↔ s.data = [] := by
  unfold jsLength
  cases s.data with
  | nil => simp
  | cons c cs =>
    have := utf16Units_pos c
    simp only [List.map_cons, List.sum_cons, reduceCtorEq, iff_false]
    omega

/-! ## Lemmas: paths -/

theorem cwd_isPrefixOf (w : World) (name : String) :
    w.cwd.data.isPrefixOf (w.cwd ++ name).data = true := by
  rw [String.data_append, List.isPrefixOf_iff_prefix]
  exact List.prefix_append _ _

theorem validateFilePath_DATA_FILE (w : World) :
    validateFilePath w (DATA_FILE w) = .ok (DATA_FILE w) := by
  simp [validateFilePath, DATA_FILE, cwd_isPrefixOf]

theorem validateFilePath_TEMP_FILE (w : World) :
    validateFilePath w (TEMP_FILE w) = .ok (TEMP_FILE w) := by
  simp [validateFilePath, TEMP_FILE, cwd_isPrefixOf]

/-! ## Lemmas: validation -/

theorem validateTask_ok_iff (dateOk : Option Json → Bool) (task : Json) :
    validateTask dateOk task = .ok () ↔
      task ≠ .null ∧ idInvalid (task.get "id") = false ∧
      descriptionInvalid (task.get "description") = false ∧
      statusInvalid (task.get "status") = false ∧
      dateOk (task.get "createdAt") = true ∧ dateOk (task.get "updatedAt") = true := by
  unfold validateTask
  cases hc : dateOk (task.get "createdAt") <;> cases hu : dateOk (task.get "updatedAt") <;>
    cases task <;> simp <;> split_ifs <;> simp_all

theorem validateTask_cases (dateOk : Option Json → Bool) (task : Json) :
    validateTask dateOk task = .ok () ∨ ∃ e, validateTask dateOk task = .error e := by
  cases h : validateTask dateOk task with
  | ok u => exact Or.inl rfl
  | error e => exact Or.inr ⟨e, rfl⟩

theorem idInvalid_false_iff (x : Option Json) :
    idInvalid x = false ↔ ∃ z : Int, 0 < z ∧ x = some (.num (.int z)) := by
  unfold idInvalid
  split
  · simp
  · simp
  · rename_i h _
    simp only [Bool.true_eq_false, false_iff, not_exists, not_and]
    intro z _ hz
    exact h z hz

theorem validateAll_ok_iff (dateOk : Option Json → Bool) (tasks : List Json) :
    validateAll dateOk tasks = .ok () ↔ ∀ t ∈ tasks, validateTask dateOk t = .ok () := by
  induction tasks with
  | nil => simp [validateAll]
  | cons t rest ih =>
    unfold validateAll
    rcases validateTask_cases dateOk t with h | ⟨e, h⟩
    · simp [h, ih]
    · simp [h]

theorem checkTasks_ok_valid (dateOk : Option Json → Bool) (tasks : List Json) :
    ∀ ids, checkTasks dateOk ids tasks = .ok () →
      ∀ t ∈ tasks, validateTask dateOk t = .ok () := by
  induction tasks with
  | nil => simp
  | cons t rest ih =>
    intro ids h
    unfold checkTasks at h
    rcases validateTask_cases dateOk t with hv | ⟨e, hv⟩
    · simp only [hv] at h
      split_ifs at h
      intro t' ht'
      rcases List.mem_cons.mp ht' with rfl | hmem
      · exact hv
      · exact ih _ h t' hmem
    · simp [hv] at h

theorem checkTasks_cases (dateOk : Option Json → Bool) (ids : List (Option Json))
    (tasks : List Json) :
    checkTasks dateOk ids tasks = .ok () ∨ ∃ e, checkTasks dateOk ids tasks = .error e := by
  cases h : checkTasks dateOk ids tasks with
  | ok u => exact Or.inl rfl
  | error e => exact Or.inr ⟨e, rfl⟩

theorem sameValueZero_of_valid (x y : Option Json) (hx : idInvalid x = false)
    (hxy : x = y) : sameValueZero x y = true := by
  obtain ⟨z, _, rfl⟩ := (idInvalid_false_iff x).mp hx
  subst hxy
  simp [sameValueZero]

theorem bitLenAux_zero (fuel : Nat) : bitLenAux fuel 0 = 0 := by
  cases fuel <;> simp [bitLenAux]

theorem two_pow_bitLenAux_le (fuel : Nat) :
    ∀ n, 0 < n → n ≤ fuel → 2 ^ (bitLenAux fuel n - 1) ≤ n ∧ 0 < bitLenAux fuel n := by
  induction fuel with
  | zero => intro n h0 h; omega
  | succ fuel ih =>
    intro n h0 h
    have hn : n ≠ 0 := by omega
    simp only [bitLenAux, hn, if_false, Nat.add_sub_cancel]
    refine ⟨?_, by omega⟩
    by_cases h2 : n / 2 = 0
    · rw [h2, bitLenAux_zero]
      simpa using h0
    · obtain ⟨hle, hpos⟩ := ih (n / 2) (by omega) (by omega)
      have hsplit : bitLenAux fuel (n / 2) = (bitLenAux fuel (n / 2) - 1) + 1 := by omega
      rw [hsplit, pow_succ]
      omega

theorem two_pow_bitLen_le (n : Nat) (h : 0 < n) : 2 ^ (bitLen n - 1) ≤ n :=
  (two_pow_bitLenAux_le n n h (le_refl n)).1

theorem roundToDouble_pos (n : Nat) (h : 0 < n) : 0 < roundToDouble n := by
  unfold roundToDouble
  split
  · exact h
  · have hulp : 0 < 2 ^ (bitLen n - 53) := by positivity
    have hle : 2 ^ (bitLen n - 53) ≤ n :=
      le_trans (Nat.pow_le_pow_right (by decide) (by omega)) (two_pow_bitLen_le n h)
    have hq : 0 < n / 2 ^ (bitLen n - 53) := Nat.div_pos hle hulp
    simp only
    split_ifs <;> positivity

theorem jsAddOne_of_lt (n : Nat) (h : n < 2 ^ 53) : jsAddOne n = n + 1 := by
  unfold jsAddOne roundToDouble
  rw [if_pos (by omega)]

theorem generateSecureId_pos (tasks : List Json) : 0 < generateSecureId tasks :=
  roundToDouble_pos _ (Nat.succ_pos _)

theorem foldl_max_ge (tasks : List Json) :
    ∀ init, init ≤ tasks.foldl (fun max task => Nat.max max (idNat task)) init ∧
      ∀ t ∈ tasks, idNat t ≤ tasks.foldl (fun max task => Nat.max max (idNat task)) init := by
  induction tasks with
  | nil => intro init; simp
  | cons t rest ih =>
    intro init
    obtain ⟨h1, h2⟩ := ih (Nat.max init (idNat t))
    simp only [List.foldl_cons, List.mem_cons, forall_eq_or_imp]
    have h3 : init ≤ Nat.max init (idNat t) := Nat.le_max_left _ _
    have h4 : idNat t ≤ Nat.max init (idNat t) := Nat.le_max_right _ _
    exact ⟨le_trans h3 h1, le_trans h4 h1, h2⟩

theorem foldl_max_lt (bound : Nat) (tasks : List Json) :
    ∀ init, init < bound → (∀ t ∈ tasks, idNat t < bound) →
      tasks.foldl (fun max task => Nat.max max (idNat task)) init < bound := by
  induction tasks with
  | nil => intro init h _; simpa using h
  | cons t rest ih =>
    intro init h hall
    simp only [List.foldl_cons]
    apply ih
    · exact Nat.max_lt.mpr ⟨h, hall t (List.mem_cons_self _ _)⟩
    · exact fun t' ht' => hall t' (List.mem_cons_of_mem _ ht')

theorem foldl_max_mem (tasks : List Json) :
    ∀ init, tasks.foldl (fun max task => Nat.max max (idNat task)) init = init ∨
      ∃ t ∈ tasks, tasks.foldl (fun max task => Nat.max max (idNat task)) init = idNat t := by
  induction tasks with
  | nil => intro init; simp
  | cons t rest ih =>
    intro init
    simp only [List.foldl_cons]
    rcases ih (Nat.max init (idNat t)) with h | ⟨t', ht', h⟩
    · rcases Nat.le_total init (idNat t) with hle | hle
      · right
        exact ⟨t, List.mem_cons_self _ _, by rw [h]; exact Nat.max_eq_right hle⟩
      · left
        rw [h]; exact Nat.max_eq_left hle
    · exact Or.inr ⟨t', List.mem_cons_of_mem _ ht', h⟩

/-! ## Lemmas: the store -/

theorem readTasks_ok_inv (dateOk : Option Json → Bool) (w : World) (tasks : List Json)
    (h : (readTasks dateOk w).1 = .ok tasks) :
    (w.data = none ∧ tasks = [] ∧
        (readTasks dateOk w).2 = ⟨w.cwd, some (.json (.arr [])), w.temp⟩) ∨
      (w.data = some (.json (.arr tasks)) ∧ checkTasks dateOk [] tasks = .ok () ∧
        (readTasks dateOk w).2 = w) := by
  obtain ⟨cwd, data, temp⟩ := w
  unfold readTasks at h ⊢
  simp only [validateFilePath_DATA_FILE] at h ⊢
  rcases data with _ | c
  · left
    simp only [Except.ok.injEq] at h
    exact ⟨rfl, h.symm, rfl⟩
  · right
    cases c with
    | malformed text => simp at h
    | json v =>
      cases v with
      | arr items =>
        rcases checkTasks_cases dateOk [] items with hc | ⟨e, hc⟩
        · simp only [hc, Except.ok.injEq] at h ⊢
          subst h
          simp [hc]
        · simp [hc] at h
      | null => simp at h
      | bool b => simp at h
      | num x => simp at h
      | str s => simp at h
      | obj fields => simp at h

theorem readTasks_valid (dateOk : Option Json → Bool) (w : World) (tasks : List Json)
    (h : (readTasks dateOk w).1 = .ok tasks) :
    ∀ t ∈ tasks, validateTask dateOk t = .ok () := by
  rcases readTasks_ok_inv dateOk w tasks h with ⟨_, rfl, _⟩ | ⟨_, hc, _⟩
  · simp
  · exact checkTasks_ok_valid dateOk tasks [] hc

theorem readTasks_cwd (dateOk : Option Json → Bool) (w : World) :
    (readTasks dateOk w).2.cwd = w.cwd := by
  unfold readTasks
  simp only [validateFilePath_DATA_FILE]
  split <;> try rfl
  split <;> rfl

theorem readTasks_stored (dateOk : Option Json → Bool) (w : World) (items : List Json)
    (hdata : w.data = some (.json (.arr items))) :
    readTasks dateOk w =
      match checkTasks dateOk [] items with
      | .error e => (.error e, w)
      | .ok _ => (.ok items, w) := by
  unfold readTasks
  simp only [validateFilePath_DATA_FILE, hdata]

theorem writeTasks_arr (dateOk : Option Json → Bool) (w : World) (items : List Json) :
    writeTasks dateOk w (.arr items) =
      match validateAll dateOk items with
      | .error e => (.error e, w)
      | .ok _ => (.ok (), ⟨w.cwd, some (.json (.arr items)), none⟩) := by
  unfold writeTasks
  simp only [validateFilePath_DATA_FILE, validateFilePath_TEMP_FILE]

theorem sanitizeInput_str_empty (s : String) (h : s.data = []) :
    jsLength (sanitizeInput (.str s)) = 0 := by
  simp [sanitizeInput, h, stripTags, stripControl, jsTrim, jsLength]

theorem validateTask_newTask (dateOk : Option Json → Bool) (newId : Nat)
    (description created updated : String) (hid : 0 < newId)
    (hdesc : jsTrim description.data ≠ [])
    (hc : dateOk (some (.str created)) = true)
    (hu : dateOk (some (.str updated)) = true) :
    validateTask dateOk (newTask newId description created updated) = .ok () := by
  rw [validateTask_ok_iff]
  have hlen : ¬ jsLength (String.mk (jsTrim description.data)) = 0 := by
    rw [jsLength_eq_zero_iff]
    exact hdesc
  simp [newTask, Json.get, List.lookup, idInvalid, descriptionInvalid, statusInvalid,
    hc, hu, hlen]
  omega

theorem sanitizeInput_trimmed (d : Arg) (h : 0 < jsLength (sanitizeInput d)) :
    jsTrim (sanitizeInput d).data ≠ [] := by
  cases d with
  | str s =>
    have hne : (sanitizeInput (.str s)).data ≠ [] := by
      intro hnil
      have := (jsLength_eq_zero_iff _).mpr hnil
      omega
    simp only [sanitizeInput] at hne ⊢
    rw [jsTrim_idem]
    exact hne
  | undefined => simp [sanitizeInput, jsLength] at h
  | num n => simp [sanitizeInput, jsLength] at h

/-- What addTask returns once the description has passed its checks and the store
has loaded. -/
theorem addTask_of_load (dateOk : Option Json → Bool) (created updated : String)
    (w : World) (s : String) (tasks : List Json)
    (hpos : 0 < jsLength (sanitizeInput (.str s)))
    (hmax : jsLength (sanitizeInput (.str s)) ≤ MAX_DESCRIPTION_LENGTH)
    (hload : (readTasks dateOk w).1 = .ok tasks) :
    addTask dateOk created updated w (.str s) =
      match validateAll dateOk
          (tasks ++ [newTask (generateSecureId tasks) (sanitizeInput (.str s))
            created updated]) with
      | .error e => (.error e, (readTasks dateOk w).2)
      | .ok _ => (.ok (generateSecureId tasks), ⟨w.cwd, some (.json (.arr
          (tasks ++ [newTask (generateSecureId tasks) (sanitizeInput (.str s))
            created updated]))), none⟩) := by
  have hs : s.data ≠ [] := by
    intro hnil
    have := sanitizeInput_str_empty s hnil
    omega
  have hcwd := readTasks_cwd dateOk w
  rcases hr : readTasks dateOk w with ⟨r, w1⟩
  rw [hr] at hload hcwd
  simp only at hload hcwd
  subst hload
  unfold addTask
  have h0 : ¬ jsLength (sanitizeInput (.str s)) = 0 := by omega
  have h1 : ¬ jsLength (sanitizeInput (.str s)) > MAX_DESCRIPTION_LENGTH := by omega
  have hemp : s.data.isEmpty = false := by
    cases hd : s.data with
    | nil => exact absurd hd hs
    | cons c cs => rfl
  simp only [Arg.falsy, Arg.notString, hemp, Bool.or_self,
    Bool.false_eq_true, if_false, beq_iff_eq, h0, h1, hr, writeTasks_arr, hcwd]
  cases validateAll dateOk
    (tasks ++ [newTask (generateSecureId tasks) (sanitizeInput (.str s)) created updated])
    <;> rfl

theorem addTask_ok_inv (dateOk : Option Json → Bool) (created updated : String)
    (w : World) (d : Arg) (newId : Nat)
    (hadd : (addTask dateOk created updated w d).1 = .ok newId) :
    ∃ s, d = .str s ∧ 0 < jsLength (sanitizeInput (.str s)) ∧
      jsLength (sanitizeInput (.str s)) ≤ MAX_DESCRIPTION_LENGTH ∧
      ∃ tasks, (readTasks dateOk w).1 = .ok tasks := by
  cases d with
  | undefined => simp [addTask, Arg.falsy] at hadd
  | num n => simp [addTask, Arg.notString] at hadd
  | str s =>
    refine ⟨s, rfl, ?_⟩
    unfold addTask at hadd
    split_ifs at hadd with ha
    by_cases hb : jsLength (sanitizeInput (.str s)) = 0
    · simp [hb] at hadd
    · by_cases hc : MAX_DESCRIPTION_LENGTH < jsLength (sanitizeInput (.str s))
      · simp [hb, hc] at hadd
      · refine ⟨by omega, by omega, ?_⟩
        rcases hr : readTasks dateOk w with ⟨r, w1⟩
        cases r with
        | ok tasks => exact ⟨tasks, rfl⟩
        | error e => simp [hb, hc, hr] at hadd

theorem addTask_ok_shape (dateOk : Option Json → Bool) (created updated : String)
    (w : World) (d : Arg) (tasks : List Json) (newId : Nat)
    (hload : (readTasks dateOk w).1 = .ok tasks)
    (hadd : (addTask dateOk created updated w d).1 = .ok newId) :
    newId = generateSecureId tasks ∧
      (addTask dateOk created updated w d).2 = ⟨w.cwd, some (.json (.arr
        (tasks ++ [newTask newId (sanitizeInput d) created updated]))), none⟩ := by
  obtain ⟨s, rfl, hpos, hmax, _⟩ := addTask_ok_inv dateOk created updated w d newId hadd
  rw [addTask_of_load dateOk created updated w s tasks hpos hmax hload] at hadd ⊢
  cases hv : validateAll dateOk
    (tasks ++ [newTask (generateSecureId tasks) (sanitizeInput (.str s)) created updated])
    with
  | error e => simp [hv] at hadd
  | ok u =>
    simp only [hv, Except.ok.injEq] at hadd ⊢
    subst hadd
    exact ⟨rfl, rfl⟩

theorem deleteTask_ok_shape (dateOk : Option Json → Bool) (w : World) (id : Arg)
    (tasks : List Json) (hload : (readTasks dateOk w).1 = .ok tasks)
    (hdel : (deleteTask dateOk w id).1 = .ok ()) :
    tasks.findIdx (fun t => strictEqId (t.get "id") (parseInt id)) < tasks.length ∧
      (deleteTask dateOk w id).2 = ⟨w.cwd, some (.json (.arr (tasks.eraseIdx
        (tasks.findIdx fun t => strictEqId (t.get "id") (parseInt id))))), none⟩ := by
  have hcwd := readTasks_cwd dateOk w
  rcases hr : readTasks dateOk w with ⟨r, w1⟩
  rw [hr] at hload hcwd
  simp only at hload hcwd
  subst hload
  unfold deleteTask at hdel ⊢
  simp only [hr, writeTasks_arr] at hdel ⊢
  have hle : tasks.findIdx (fun t => strictEqId (t.get "id") (parseInt id))
      ≤ tasks.length := List.findIdx_le_length _
  by_cases h1 : (id.falsy || (parseInt id).isNaN) = true
  · simp [h1] at hdel
  · by_cases h2 : tasks.findIdx (fun t => strictEqId (t.get "id") (parseInt id))
        = tasks.length
    · simp [h1, h2] at hdel
    · refine ⟨by omega, ?_⟩
      simp only [h1, h2, if_false] at hdel ⊢
      cases hv : validateAll dateOk (tasks.eraseIdx
        (tasks.findIdx fun t => strictEqId (t.get "id") (parseInt id))) with
      | error e => simp [hv] at hdel
      | ok u => simp [hcwd]

theorem generateSecureId_of_safe (tasks : List Json)
    (hsafe : ∀ t ∈ tasks, idNat t < 2 ^ 53) :
    generateSecureId tasks
      = tasks.foldl (fun max task => Nat.max max (idNat task)) 0 + 1 := by
  unfold generateSecureId
  exact jsAddOne_of_lt _ (foldl_max_lt (2 ^ 53) tasks 0 (by positivity) hsafe)

theorem newTask_get_description (newId : Nat) (description created updated : String) :
    (newTask newId description created updated).get "description"
      = some (.str description) := by
  simp [newTask, Json.get, List.lookup]

theorem newTask_get_status (newId : Nat) (description created updated : String) :
    (newTask newId description created updated).get "status" = some (.str "todo") := by
  simp [newTask, Json.get, List.lookup]

/-! ## C1: ids and deletion -/

/-- C1, as stated, fails: in the store with ids 1 and 2, deleteTask removes the
record holding the highest id 2, and the addTask that follows assigns 2 again. -/
theorem deleted_highest_id_is_reissued :
    (readTasks isoDateOk
        (sampleWorld [sampleTask 1 "a" "todo", sampleTask 2 "b" "done"])).1
      = .ok [sampleTask 1 "a" "todo", sampleTask 2 "b" "done"] ∧
    deleteTask isoDateOk
        (sampleWorld [sampleTask 1 "a" "todo", sampleTask 2 "b" "done"]) (.str "2")
      = (.ok (), sampleWorld [sampleTask 1 "a" "todo"]) ∧
    (addTask isoDateOk sampleTime sampleTime
        (sampleWorld [sampleTask 1 "a" "todo"]) (.str "c")).1 = .ok 2 :=
  ⟨rfl, rfl, rfl⟩

/-- C1 (amended): in a store that loads successfully with every id below 2^53, when
deleteTask has removed a record and addTask is then called with an accepted
description, the id assigned is greater than the id of every record still in the
store, so no id that is present is assigned a second time. -/
theorem addTask_after_deleteTask_id_above_present (dateOk : Option Json → Bool)
    (created updated : String) (w : World) (tasks : List Json) (id d : Arg)
    (newId : Nat)
    (hload : (readTasks dateOk w).1 = .ok tasks)
    (hsafe : ∀ t ∈ tasks, idNat t < 2 ^ 53)
    (hdel : (deleteTask dateOk w id).1 = .ok ())
    (hadd : (addTask dateOk created updated (deleteTask dateOk w id).2 d).1 = .ok newId) :
    ∃ i, i < tasks.length ∧
      (deleteTask dateOk w id).2.data = some (.json (.arr (tasks.eraseIdx i))) ∧
      ∀ t ∈ tasks.eraseIdx i, idNat t < newId := by
  obtain ⟨hidx, hw⟩ := deleteTask_ok_shape dateOk w id tasks hload hdel
  refine ⟨_, hidx, by rw [hw], ?_⟩
  obtain ⟨s, _, _, _, tasks1, hload1⟩ :=
    addTask_ok_inv dateOk created updated _ d newId hadd
  obtain ⟨hnew, _⟩ := addTask_ok_shape dateOk created updated _ d tasks1 newId hload1 hadd
  have hstored : tasks1 = tasks.eraseIdx
      (tasks.findIdx fun t => strictEqId (t.get "id") (parseInt id)) := by
    rcases readTasks_ok_inv dateOk _ tasks1 hload1 with ⟨hnone, _, _⟩ | ⟨hsome, _, _⟩
    · rw [hw] at hnone
      simp at hnone
    · rw [hw] at hsome
      simp only [Option.some.injEq, Content.json.injEq, Json.arr.injEq] at hsome
      exact hsome.symm
  subst hstored
  intro t ht
  have hsafe1 : ∀ t ∈ tasks.eraseIdx
      (tasks.findIdx fun t => strictEqId (t.get "id") (parseInt id)), idNat t < 2 ^ 53 :=
    fun t ht => hsafe t ((List.eraseIdx_sublist _ _).subset ht)
  have hlt := foldl_max_lt (2 ^ 53) _ 0 (by positivity) hsafe1
  have hge := (foldl_max_ge (tasks.eraseIdx
    (tasks.findIdx fun t => strictEqId (t.get "id") (parseInt id))) 0).2 t ht
  rw [hnew]
  unfold generateSecureId
  simp only
  rw [jsAddOne_of_lt _ hlt]
  omega

/-- C1 (amended), instance: ids 1 and 2, delete 1, add: the new id 3 is above the
remaining id 2. -/
theorem addTask_after_deleteTask_id_above_present_witness :
    ∃ i, i < [sampleTask 1 "a" "todo", sampleTask 2 "b" "done"].length ∧
      (deleteTask isoDateOk
        (sampleWorld [sampleTask 1 "a" "todo", sampleTask 2 "b" "done"])
        (.str "1")).2.data
        = some (.json (.arr
          ([sampleTask 1 "a" "todo", sampleTask 2 "b" "done"].eraseIdx i))) ∧
      ∀ t ∈ [sampleTask 1 "a" "todo", sampleTask 2 "b" "done"].eraseIdx i,
        idNat t < 3 :=
  addTask_after_deleteTask_id_above_present isoDateOk sampleTime sampleTime
    (sampleWorld [sampleTask 1 "a" "todo", sampleTask 2 "b" "done"])
    [sampleTask 1 "a" "todo", sampleTask 2 "b" "done"] (.str "1") (.str "x") 3
    rfl (by simp [idNat, sampleTask, Json.get, List.lookup]) rfl rfl

/-! ## C2: the id addTask assigns -/

/-- C2, at the failing input: the store holds one record with id 2^53
(9007199254740992).  It loads; addTask assigns 9007199254740992 again, because
`maxId + 1` rounds back to 2^53, and stores two records with that id; the store
then no longer loads. -/
theorem addTask_repeats_id_at_two_pow_53 :
    (readTasks isoDateOk (sampleWorld [sampleTask 9007199254740992 "a" "todo"])).1
      = .ok [sampleTask 9007199254740992 "a" "todo"] ∧
    addTask isoDateOk sampleTime sampleTime
        (sampleWorld [sampleTask 9007199254740992 "a" "todo"]) (.str "b")
      = (.ok 9007199254740992, sampleWorld [sampleTask 9007199254740992 "a" "todo",
          newTask 9007199254740992 "b" sampleTime sampleTime]) ∧
    (readTasks isoDateOk (sampleWorld [sampleTask 9007199254740992 "a" "todo",
        newTask 9007199254740992 "b" sampleTime sampleTime])).1
      = .error "Duplicate task ID found" :=
  ⟨rfl, rfl, rfl⟩

/-! ## C3: an accepted description is stored sanitized -/

/-- C3: for every string `d` whose sanitized form has between 1 and 1000 code units
and every store that loads successfully as `tasks`, addTask succeeds: the collection
`tasks` followed by the new record passes the validation writeTasks runs before
saving, it is what the data file holds afterwards, and the description of the new
record is `sanitizeInput d`.  The two timestamps are strings `Date.parse` accepts,
as the results of `toISOString` are. -/
theorem addTask_stores_sanitized_description (dateOk : Option Json → Bool)
    (created updated : String) (w : World) (d : String) (tasks : List Json)
    (hc : dateOk (some (.str created)) = true)
    (hu : dateOk (some (.str updated)) = true)
    (hpos : 0 < jsLength (sanitizeInput (.str d)))
    (hmax : jsLength (sanitizeInput (.str d)) ≤ 1000)
    (hload : (readTasks dateOk w).1 = .ok tasks) :
    ∃ newId task,
      (addTask dateOk created updated w (.str d)).1 = .ok newId ∧
      validateAll dateOk (tasks ++ [task]) = .ok () ∧
      (addTask dateOk created updated w (.str d)).2.data
        = some (.json (.arr (tasks ++ [task]))) ∧
      task.get "description" = some (.str (sanitizeInput (.str d))) := by
  have hvalid : validateAll dateOk (tasks ++ [newTask (generateSecureId tasks)
      (sanitizeInput (.str d)) created updated]) = .ok () := by
    rw [validateAll_ok_iff]
    intro t ht
    rcases List.mem_append.mp ht with h | h
    · exact readTasks_valid dateOk w tasks hload t h
    · rw [List.mem_singleton.mp h]
      exact validateTask_newTask dateOk _ _ _ _ (generateSecureId_pos tasks)
        (sanitizeInput_trimmed _ hpos) hc hu
  refine ⟨generateSecureId tasks, newTask (generateSecureId tasks)
    (sanitizeInput (.str d)) created updated, ?_, hvalid, ?_,
    newTask_get_description _ _ _ _⟩
  · rw [addTask_of_load dateOk created updated w d tasks hpos hmax hload, hvalid]
  · rw [addTask_of_load dateOk created updated w d tasks hpos hmax hload, hvalid]

/-- C3, instance: on the empty stored array, adding the string of the test
'should trim task descriptions'. -/
theorem addTask_stores_sanitized_description_witness :
    ∃ newId task,
      (addTask isoDateOk sampleTime sampleTime (sampleWorld [])
        (.str "  Task with spaces  ")).1 = .ok newId ∧
      validateAll isoDateOk ([] ++ [task]) = .ok () ∧
      (addTask isoDateOk sampleTime sampleTime (sampleWorld [])
        (.str "  Task with spaces  ")).2.data = some (.json (.arr ([] ++ [task]))) ∧
      task.get "description"
        = some (.str (sanitizeInput (.str "  Task with spaces  "))) :=
  addTask_stores_sanitized_description isoDateOk sampleTime sampleTime (sampleWorld [])
    "  Task with spaces  " [] rfl rfl (by decide) (by decide) rfl

/-! ## C4: a rejected description leaves the store alone -/

/-- C4: addTask fails when the description is missing or not a string (or the empty
string), when its sanitized form is empty, and when its sanitized form has more than
1000 code units, then with the length error; in each case the world is returned as
it was, so the data file was not read, created or written. -/
theorem addTask_rejects_without_touching_store (dateOk : Option Json → Bool)
    (created updated : String) (w : World) (d : Arg)
    (h : d.notString = true ∨ jsLength (sanitizeInput d) = 0 ∨
      1000 < jsLength (sanitizeInput d)) :
    ∃ e, addTask dateOk created updated w d = (.error e, w) ∧
      (d.notString = true → e = "Task description is required") ∧
      (1000 < jsLength (sanitizeInput d) →
        e = "Task description too long (max 1000 characters)") := by
  unfold addTask
  by_cases hn : d.notString = true
  · refine ⟨"Task description is required", by simp [hn], fun _ => rfl, ?_⟩
    intro hlong
    cases d <;> simp [Arg.notString, sanitizeInput, jsLength] at hn hlong
  · by_cases hf : d.falsy = true
    · refine ⟨"Task description is required", by simp [hf], fun h => absurd h hn, ?_⟩
      intro hlong
      cases d with
      | str s =>
        have hs : s.data = [] := by simpa [Arg.falsy] using hf
        have := sanitizeInput_str_empty s hs
        omega
      | undefined => simp [Arg.notString] at hn
      | num n => simp [Arg.notString] at hn
    · by_cases h0 : jsLength (sanitizeInput d) = 0
      · exact ⟨"Task description cannot be empty", by simp [hn, hf, h0],
          fun h => absurd h hn, fun hlong => by omega⟩
      · have hlong : 1000 < jsLength (sanitizeInput d) := by
          rcases h with h | h | h
          · exact absurd h hn
          · exact absurd h h0
          · exact h
        exact ⟨"Task description too long (max 1000 characters)",
          by simp [hn, hf, h0, MAX_DESCRIPTION_LENGTH, hlong],
          fun h => absurd h hn, fun _ => rfl⟩

set_option maxRecDepth 100000 in
/-- C4, instance: a description of 1001 letters, on a world without a data file. -/
theorem addTask_rejects_without_touching_store_witness :
    ∃ e, addTask isoDateOk sampleTime sampleTime ⟨"/home/user/tracker", none, none⟩
        (.str longDescription)
        = (.error e, ⟨"/home/user/tracker", none, none⟩) ∧
      ((Arg.str longDescription).notString = true →
        e = "Task description is required") ∧
      (1000 < jsLength (sanitizeInput (.str longDescription)) →
        e = "Task description too long (max 1000 characters)") :=
  addTask_rejects_without_touching_store isoDateOk sampleTime sampleTime
    ⟨"/home/user/tracker", none, none⟩ (.str longDescription)
    (Or.inr (Or.inr (by decide)))

/-! ## C5: addTask appends one record -/

/-- C5: when the store loads as `tasks` and addTask accepts the description, the
data file afterwards holds `tasks` followed by exactly one record: the records of
`tasks` are the same, at the same positions, the new record is last, and its status
is 'todo'. -/
theorem addTask_appends_one_todo_record (dateOk : Option Json → Bool)
    (created updated : String) (w : World) (d : Arg) (tasks : List Json) (newId : Nat)
    (hload : (readTasks dateOk w).1 = .ok tasks)
    (hadd : (addTask dateOk created updated w d).1 = .ok newId) :
    ∃ task,
      (addTask dateOk created updated w d).2.data
        = some (.json (.arr (tasks ++ [task]))) ∧
      (∀ i, i < tasks.length → (tasks ++ [task])[i]? = tasks[i]?) ∧
      (tasks ++ [task])[tasks.length]? = some task ∧
      (tasks ++ [task]).length = tasks.length + 1 ∧
      task.get "status" = some (.str "todo") := by
  obtain ⟨_, hw⟩ := addTask_ok_shape dateOk created updated w d tasks newId hload hadd
  refine ⟨newTask newId (sanitizeInput d) created updated, by rw [hw], ?_, ?_, ?_,
    newTask_get_status _ _ _ _⟩
  · intro i hi
    exact List.getElem?_append_left hi
  · simp
  · simp

/-- C5, instance: adding to the stored array that holds one record. -/
theorem addTask_appends_one_todo_record_witness :
    ∃ task,
      (addTask isoDateOk sampleTime sampleTime (sampleWorld [sampleTask 1 "a" "done"])
        (.str "New task")).2.data
        = some (.json (.arr ([sampleTask 1 "a" "done"] ++ [task]))) ∧
      (∀ i, i < [sampleTask 1 "a" "done"].length →
        ([sampleTask 1 "a" "done"] ++ [task])[i]? = [sampleTask 1 "a" "done"][i]?) ∧
      ([sampleTask 1 "a" "done"] ++ [task])[[sampleTask 1 "a" "done"].length]?
        = some task ∧
      ([sampleTask 1 "a" "done"] ++ [task]).length
        = [sampleTask 1 "a" "done"].length + 1 ∧
      task.get "status" = some (.str "todo") :=
  addTask_appends_one_todo_record isoDateOk sampleTime sampleTime
    (sampleWorld [sampleTask 1 "a" "done"]) (.str "New task")
    [sampleTask 1 "a" "done"] 2 rfl rfl

/-! ## C6: duplicate ids in the file -/

/-- C8: when the data file holds an array and some record of it is rejected by
validateTask, readTasks fails: it returns an error and no collection, and leaves
the file as it is. -/
theorem readTasks_fails_on_invalid_record (dateOk : Option Json → Bool) (w : World)
    (tasks : List Json) (t : Json) (e : String)
    (hdata : w.data = some (.json (.arr tasks)))
    (hmem : t ∈ tasks) (hbad : validateTask dateOk t = .error e) :
    ∃ e1, readTasks dateOk w = (.error e1, w) := by
  rw [readTasks_stored dateOk w tasks hdata]
  rcases checkTasks_cases dateOk [] tasks with hc | ⟨e1, hc⟩
  · have := checkTasks_ok_valid dateOk tasks [] hc t hmem
    rw [hbad] at this
    cases this
  · exact ⟨e1, by rw [hc]⟩

/-- C8, instance: the array of the test 'should validate task status values',
whose only record has the status 'invalid_status'. -/
theorem readTasks_fails_on_invalid_record_witness :
    ∃ e1, readTasks isoDateOk
        (sampleWorld [sampleTask 1 "Status test task" "invalid_status"])
      = (.error e1, sampleWorld [sampleTask 1 "Status test task" "invalid_status"]) :=
  readTasks_fails_on_invalid_record isoDateOk
    (sampleWorld [sampleTask 1 "Status test task" "invalid_status"])
    [sampleTask 1 "Status test task" "invalid_status"]
    (sampleTask 1 "Status test task" "invalid_status") "Invalid task status"
    rfl (List.mem_singleton.mpr rfl) rfl

/-! ## C9: writeTasks and duplicate ids -/

/-- C9, at the failing input: writeTasks is given two valid records that share
id 1.  It succeeds and replaces the data file with that collection, which readTasks
then rejects. -/
theorem writeTasks_accepts_shared_id :
    (sampleTask 1 "a" "todo").get "id" = (sampleTask 1 "b" "done").get "id" ∧
    writeTasks isoDateOk (sampleWorld [])
        (.arr [sampleTask 1 "a" "todo", sampleTask 1 "b" "done"])
      = (.ok (), sampleWorld [sampleTask 1 "a" "todo", sampleTask 1 "b" "done"]) ∧
    (readTasks isoDateOk
        (sampleWorld [sampleTask 1 "a" "todo", sampleTask 1 "b" "done"])).1
      = .error "Duplicate task ID found" :=
  ⟨rfl, rfl, rfl⟩

/-! ## C10: the length of a stored description -/

set_option maxRecDepth 100000 in
/-- C10, at the failing input: a record whose description has 1001 code units and
whose other fields are valid.  validateTask accepts it, readTasks returns the array
that holds it, and writeTasks saves a collection that holds it. -/
theorem long_description_passes_validation :
    jsLength longDescription = 1001 ∧
    validateTask isoDateOk (sampleTask 1 longDescription "todo") = .ok () ∧
    (readTasks isoDateOk (sampleWorld [sampleTask 1 longDescription "todo"])).1
      = .ok [sampleTask 1 longDescription "todo"] ∧
    writeTasks isoDateOk (sampleWorld []) (.arr [sampleTask 1 longDescription "todo"])
      = (.ok (), sampleWorld [sampleTask 1 longDescription "todo"]) :=
  ⟨by decide, rfl, rfl, rfl⟩

/-! ## Lemmas: the load check -/

theorem sameValueZero_eq (x y : Option Json) (h : sameValueZero x y = true) : x = y := by
  unfold sameValueZero at h
  split at h <;> simp_all

theorem checkTasks_ok_of_distinct (dateOk : Option Json → Bool) (tasks : List Json) :
    ∀ ids, (∀ t ∈ tasks, validateTask dateOk t = .ok ()) →
      tasks.Pairwise (fun a b => a.get "id" ≠ b.get "id") →
      (∀ t ∈ tasks, t.get "id" ∉ ids) →
      checkTasks dateOk ids tasks = .ok () := by
  induction tasks with
  | nil => intro ids _ _ _; rfl
  | cons t rest ih =>
    intro ids hvalid hdistinct hfresh
    have hv := hvalid t (List.mem_cons_self _ _)
    obtain ⟨hhead, htail⟩ := List.pairwise_cons.mp hdistinct
    have hany : ¬ ids.any (sameValueZero (t.get "id")) = true := by
      rw [List.any_eq_true]
      rintro ⟨x, hx, hsame⟩
      have := sameValueZero_eq _ _ hsame
      exact hfresh t (List.mem_cons_self _ _) (this ▸ hx)
    unfold checkTasks
    simp only [hv, hany, Bool.false_eq_true, if_false]
    apply ih _ (fun t1 h1 => hvalid t1 (List.mem_cons_of_mem _ h1)) htail
    intro t1 h1 hmem
    rcases List.mem_cons.mp hmem with heq | hin
    · exact hhead t1 h1 heq.symm
    · exact hfresh t1 (List.mem_cons_of_mem _ h1) hin

theorem checkTasks_ok_distinct (dateOk : Option Json → Bool) (tasks : List Json) :
    ∀ ids, checkTasks dateOk ids tasks = .ok () →
      tasks.Pairwise (fun a b => a.get "id" ≠ b.get "id") ∧
      ∀ t ∈ tasks, t.get "id" ∉ ids := by
  induction tasks with
  | nil => intro ids _; simp
  | cons t rest ih =>
    intro ids h
    have hvalid := checkTasks_ok_valid dateOk (t :: rest) ids h
    have hv := hvalid t (List.mem_cons_self _ _)
    have hid := ((validateTask_ok_iff dateOk t).mp hv).2.1
    unfold checkTasks at h
    simp only [hv] at h
    by_cases hany : ids.any (sameValueZero (t.get "id")) = true
    · simp [hany] at h
    · simp only [hany, Bool.false_eq_true, if_false] at h
      obtain ⟨hpair, hfresh⟩ := ih _ h
      refine ⟨List.pairwise_cons.mpr ⟨?_, hpair⟩, ?_⟩
      · intro t1 h1 heq
        exact hfresh t1 h1 (heq ▸ List.mem_cons_self _ _)
      · intro t1 h1 hmem
        rcases List.mem_cons.mp h1 with rfl | hrest
        · apply hany
          rw [List.any_eq_true]
          exact ⟨_, hmem, sameValueZero_of_valid _ _ hid rfl⟩
        · exact hfresh t1 hrest (List.mem_cons_of_mem _ hmem)

theorem checkTasks_ok_iff (dateOk : Option Json → Bool) (tasks : List Json) :
    checkTasks dateOk [] tasks = .ok () ↔
      (∀ t ∈ tasks, validateTask dateOk t = .ok ()) ∧
      tasks.Pairwise (fun a b => a.get "id" ≠ b.get "id") := by
  constructor
  · intro h
    exact ⟨checkTasks_ok_valid dateOk tasks [] h, (checkTasks_ok_distinct dateOk tasks [] h).1⟩
  · rintro ⟨hv, hd⟩
    exact checkTasks_ok_of_distinct dateOk tasks [] hv hd (fun _ _ h => by simp at h)

theorem readTasks_loaded (dateOk : Option Json → Bool) (w : World) (tasks : List Json)
    (h : (readTasks dateOk w).1 = .ok tasks) :
    (∀ t ∈ tasks, validateTask dateOk t = .ok ()) ∧
      tasks.Pairwise (fun a b => a.get "id" ≠ b.get "id") := by
  rcases readTasks_ok_inv dateOk w tasks h with ⟨_, rfl, _⟩ | ⟨_, hc, _⟩
  · simp
  · exact (checkTasks_ok_iff dateOk tasks).mp hc

theorem readTasks_of_stored_ok (dateOk : Option Json → Bool) (wd : String)
    (tasks : List Json) (tmp : Option Content)
    (hvalid : ∀ t ∈ tasks, validateTask dateOk t = .ok ())
    (hdistinct : tasks.Pairwise (fun a b => a.get "id" ≠ b.get "id")) :
    readTasks dateOk ⟨wd, some (.json (.arr tasks)), tmp⟩
      = (.ok tasks, ⟨wd, some (.json (.arr tasks)), tmp⟩) := by
  rw [readTasks_stored dateOk _ tasks rfl,
    (checkTasks_ok_iff dateOk tasks).mpr ⟨hvalid, hdistinct⟩]

/-! ## C11: save then load -/

/-- C11: for every collection whose records all pass validateTask and whose ids are
pairwise distinct, writeTasks succeeds, and the readTasks that follows returns that
collection, the same records in the same order, leaving the file as written. -/
theorem writeTasks_then_readTasks (dateOk : Option Json → Bool) (w : World)
    (tasks : List Json)
    (hvalid : ∀ t ∈ tasks, validateTask dateOk t = .ok ())
    (hdistinct : tasks.Pairwise (fun a b => a.get "id" ≠ b.get "id")) :
    (writeTasks dateOk w (.arr tasks)).1 = .ok () ∧
      readTasks dateOk (writeTasks dateOk w (.arr tasks)).2
        = (.ok tasks, (writeTasks dateOk w (.arr tasks)).2) := by
  rw [writeTasks_arr, (validateAll_ok_iff dateOk tasks).mpr hvalid]
  exact ⟨rfl, readTasks_of_stored_ok dateOk _ tasks _ hvalid hdistinct⟩

/-- C11, instance: a collection of two records, saved over an absent data file. -/
theorem writeTasks_then_readTasks_witness :
    (writeTasks isoDateOk ⟨"/home/user/tracker", none, none⟩
        (.arr [sampleTask 1 "a" "todo", sampleTask 2 "b" "done"])).1 = .ok () ∧
      readTasks isoDateOk (writeTasks isoDateOk ⟨"/home/user/tracker", none, none⟩
        (.arr [sampleTask 1 "a" "todo", sampleTask 2 "b" "done"])).2
        = (.ok [sampleTask 1 "a" "todo", sampleTask 2 "b" "done"],
          (writeTasks isoDateOk ⟨"/home/user/tracker", none, none⟩
            (.arr [sampleTask 1 "a" "todo", sampleTask 2 "b" "done"])).2) :=
  writeTasks_then_readTasks isoDateOk ⟨"/home/user/tracker", none, none⟩
    [sampleTask 1 "a" "todo", sampleTask 2 "b" "done"]
    (by
      intro t ht
      simp only [List.mem_cons, List.mem_singleton, List.not_mem_nil, or_false] at ht
      rcases ht with rfl | rfl <;> rfl)
    (by simp [sampleTask, Json.get, List.lookup])

/-! ## Lemmas: locating and changing a record -/

theorem lookup_setField_same (key : String) (x : Json) (fields : List (String × Json)) :
    (setField key x fields).lookup key = some x := by
  induction fields with
  | nil => simp [setField, List.lookup]
  | cons f rest ih =>
    obtain ⟨k, v⟩ := f
    unfold setField
    by_cases hk : k = key
    · subst hk
      simp [List.lookup]
    · have hne : (key == k) = false := by
        simpa using fun h : key = k => hk h.symm
      simp [hk, List.lookup, hne, ih]

theorem lookup_setField_other (key other : String) (x : Json)
    (fields : List (String × Json)) (h : other ≠ key) :
    (setField key x fields).lookup other = fields.lookup other := by
  induction fields with
  | nil =>
    have hne : (other == key) = false := by simpa using h
    simp [setField, List.lookup, hne]
  | cons f rest ih =>
    obtain ⟨k, v⟩ := f
    unfold setField
    by_cases hk : k = key
    · subst hk
      have hne : (other == k) = false := by simpa using h
      simp [List.lookup, hne]
    · by_cases ho : other = k
      · subst ho
        simp [hk, List.lookup]
      · have hne : (other == k) = false := by simpa using ho
        simp [hk, List.lookup, hne, ih]

theorem Json.get_set_other (v : Json) (key other : String) (x : Json) (h : other ≠ key) :
    (v.set key x).get other = v.get other := by
  cases v <;> simp [Json.set, Json.get, lookup_setField_other _ _ _ _ h]

theorem Json.get_set_same (fields : List (String × Json)) (key : String) (x : Json) :
    ((Json.obj fields).set key x).get key = some x := by
  simp [Json.set, Json.get, lookup_setField_same]

theorem Json.set_obj (fields : List (String × Json)) (key : String) (x : Json) :
    (Json.obj fields).set key x = .obj (setField key x fields) := rfl

theorem obj_of_get (v : Json) (key : String) (x : Json) (h : v.get key = some x) :
    ∃ fields, v = .obj fields := by
  cases v <;> simp [Json.get] at h
  exact ⟨_, rfl⟩

theorem isValidStatus_iff (s : String) :
    (Arg.str s).isValidStatus = true ↔ s = "todo" ∨ s = "in-progress" ∨ s = "done" := by
  simp [Arg.isValidStatus, validStatuses]

theorem validateTask_updated (dateOk : Option Json → Bool) (t : Json) (s now : String)
    (hv : validateTask dateOk t = .ok ())
    (hs : s = "todo" ∨ s = "in-progress" ∨ s = "done")
    (hnow : dateOk (some (.str now)) = true) :
    validateTask dateOk ((t.set "status" (.str s)).set "updatedAt" (.str now)) = .ok () := by
  obtain ⟨_, h1, h2, _, h4, _⟩ := (validateTask_ok_iff dateOk t).mp hv
  obtain ⟨z, _, hz⟩ := (idInvalid_false_iff _).mp h1
  obtain ⟨fields, rfl⟩ := obj_of_get t "id" _ hz
  rw [validateTask_ok_iff]
  refine ⟨by simp [Json.set], ?_, ?_, ?_, ?_, ?_⟩
  · rw [Json.get_set_other _ _ _ _ (by decide), Json.get_set_other _ _ _ _ (by decide)]
    exact h1
  · rw [Json.get_set_other _ _ _ _ (by decide), Json.get_set_other _ _ _ _ (by decide)]
    exact h2
  · rw [Json.get_set_other _ _ _ _ (by decide), Json.get_set_same]
    rcases hs with rfl | rfl | rfl <;> simp [statusInvalid]
  · rw [Json.get_set_other _ _ _ _ (by decide), Json.get_set_other _ _ _ _ (by decide)]
    exact h4
  · rw [Json.set_obj, Json.get_set_same]
    exact hnow

/-- C12: for every id argument and every status argument that is not one of the
strings 'todo', 'in-progress', 'done', updateTaskStatus fails and returns the world
as it was, so the data file was not read, created or written; when the id argument
passes its own check the error is the one about the status. -/
theorem updateTaskStatus_rejects_bad_status (dateOk : Option Json → Bool) (now : String)
    (w : World) (id newStatus : Arg)
    (hbad : ∀ s, newStatus = .str s → s ≠ "todo" ∧ s ≠ "in-progress" ∧ s ≠ "done") :
    ∃ e, updateTaskStatus dateOk now w id newStatus = (.error e, w) ∧
      (id.falsy = false → (parseInt id).isNaN = false →
        e = "Invalid status. Must be: todo, in-progress, or done") := by
  have hinvalid : newStatus.isValidStatus = false := by
    cases newStatus with
    | undefined => rfl
    | num n => rfl
    | str s =>
      obtain ⟨h1, h2, h3⟩ := hbad s rfl
      cases h : (Arg.str s).isValidStatus with
      | false => rfl
      | true =>
        rcases (isValidStatus_iff s).mp h with h | h | h
        · exact absurd h h1
        · exact absurd h h2
        · exact absurd h h3
  unfold updateTaskStatus
  by_cases hid : (id.falsy || (parseInt id).isNaN) = true
  · refine ⟨"Valid task ID is required", by simp [hid], ?_⟩
    intro hf hn
    simp [hf, hn] at hid
  · exact ⟨"Invalid status. Must be: todo, in-progress, or done",
      by simp [hid, hinvalid], fun _ _ => rfl⟩

/-- C12, instance: the call of the test 'should reject invalid status
transitions', on a store that holds record 1. -/
theorem updateTaskStatus_rejects_bad_status_witness :
    ∃ e, updateTaskStatus isoDateOk sampleTime
        (sampleWorld [sampleTask 1 "Invalid status transition task" "todo"])
        (.num 1) (.str "invalid_status")
        = (.error e, sampleWorld [sampleTask 1 "Invalid status transition task" "todo"]) ∧
      ((Arg.num 1).falsy = false → (parseInt (.num 1)).isNaN = false →
        e = "Invalid status. Must be: todo, in-progress, or done") :=
  updateTaskStatus_rejects_bad_status isoDateOk sampleTime
    (sampleWorld [sampleTask 1 "Invalid status transition task" "todo"])
    (.num 1) (.str "invalid_status")
    (by
      intro s hs
      cases hs
      decide)

/-! ## C13: updating the status of a record -/

theorem readTasks_again (dateOk : Option Json → Bool) (w : World) (tasks : List Json)
    (h : (readTasks dateOk w).1 = .ok tasks) :
    readTasks dateOk (readTasks dateOk w).2 = (.ok tasks, (readTasks dateOk w).2) := by
  rcases readTasks_ok_inv dateOk w tasks h with ⟨_, rfl, hw⟩ | ⟨_, _, hw⟩
  · rw [hw]
    exact readTasks_of_stored_ok dateOk _ [] _ (by simp) List.Pairwise.nil
  · rw [hw]
    exact Prod.ext h (by rw [hw])

/-- C16, at the failing inputs: the store holds ids 1 and 2.  `deleteTask('2abc')`
does not fail: `parseInt` reads 2 and record 2 is removed.
`updateTaskStatus('1.9', 'done')` does not fail either: `parseInt` reads 1 and
record 1 is changed.  An absent id and a string without a leading digit are
rejected with 'Valid task ID is required' and leave the world as it was. -/
theorem lenient_id_argument_is_accepted :
    deleteTask isoDateOk (sampleWorld [sampleTask 1 "a" "todo", sampleTask 2 "b" "todo"])
        (.str "2abc")
      = (.ok (), sampleWorld [sampleTask 1 "a" "todo"]) ∧
    updateTaskStatus isoDateOk sampleTime
        (sampleWorld [sampleTask 1 "a" "todo", sampleTask 2 "b" "todo"])
        (.str "1.9") (.str "done")
      = (.ok (), sampleWorld [sampleTask 1 "a" "done", sampleTask 2 "b" "todo"]) ∧
    deleteTask isoDateOk (sampleWorld [sampleTask 1 "a" "todo", sampleTask 2 "b" "todo"])
        .undefined
      = (.error "Valid task ID is required",
          sampleWorld [sampleTask 1 "a" "todo", sampleTask 2 "b" "todo"]) ∧
    updateTaskStatus isoDateOk sampleTime
        (sampleWorld [sampleTask 1 "a" "todo", sampleTask 2 "b" "todo"])
        (.str "abc") (.str "done")
      = (.error "Valid task ID is required",
          sampleWorld [sampleTask 1 "a" "todo", sampleTask 2 "b" "todo"]) :=
  ⟨rfl, rfl, rfl, rfl⟩

/-! ## Lemmas: numerals read by parseInt -/

theorem digitValue_digitChar (d : Nat) (h : d < 10) :
    digitValue (Char.ofNat (48 + d)) = some d := by
  interval_cases d <;> rfl

theorem isJsSpace_digitChar (d : Nat) (h : d < 10) :
    isJsSpace (Char.ofNat (48 + d)) = false := by
  interval_cases d <;> rfl

theorem takeDigits_digitChars (ds : List Nat) (h : ∀ d ∈ ds, d < 10) :
    takeDigits 10 (digitChars ds) = ds := by
  induction ds with
  | nil => rfl
  | cons d ds ih =>
    have hd := h d (List.mem_cons_self _ _)
    simp only [digitChars, List.map_cons, takeDigits, digitValue_digitChar d hd, hd, if_true]
    congr 1
    exact ih (fun x hx => h x (List.mem_cons_of_mem _ hx))

theorem decDigitsAux_spec (fuel : Nat) :
    ∀ n acc, n < fuel → ∃ pre, decDigitsAux fuel n acc = pre ++ acc ∧ pre ≠ [] ∧
      (∀ d ∈ pre, d < 10) ∧ pre.foldl (fun a d => a * 10 + d) 0 = n := by
  induction fuel with
  | zero => intro n acc h; omega
  | succ fuel ih =>
    intro n acc h
    unfold decDigitsAux
    by_cases h10 : n < 10
    · refine ⟨[n], by simp [h10], by simp, by simpa using h10, by simp⟩
    · obtain ⟨pre, hpre, _, hlt, hval⟩ := ih (n / 10) (n % 10 :: acc) (by omega)
      refine ⟨pre ++ [n % 10], by simp [h10, hpre], by simp, ?_, ?_⟩
      · intro d hd
        rcases List.mem_append.mp hd with hd | hd
        · exact hlt d hd
        · simp only [List.mem_singleton] at hd
          omega
      · rw [List.foldl_append, hval]
        simp only [List.foldl_cons, List.foldl_nil]
        omega

theorem decDigits_spec (n : Nat) :
    decDigits n ≠ [] ∧ (∀ d ∈ decDigits n, d < 10) ∧
      (decDigits n).foldl (fun a d => a * 10 + d) 0 = n := by
  obtain ⟨pre, hpre, h1, h2, h3⟩ := decDigitsAux_spec (n + 1) n [] (Nat.lt_succ_self n)
  unfold decDigits
  rw [hpre, List.append_nil]
  exact ⟨h1, h2, h3⟩

theorem digitChars_head_ne (ds : List Nat) (h : ∀ d ∈ ds, d < 10) (c : Char)
    (tail : List Char) (heq : digitChars ds = c :: tail) : c ≠ 'x' ∧ c ≠ 'X' := by
  cases ds with
  | nil => simp [digitChars] at heq
  | cons d ds =>
    have hd := h d (List.mem_cons_self _ _)
    simp only [digitChars, List.map_cons, List.cons.injEq] at heq
    rw [← heq.1]
    interval_cases d <;> decide

theorem parseIntChars_digitChars (ds : List Nat) (hne : ds ≠ []) (h : ∀ d ∈ ds, d < 10) :
    parseIntChars (digitChars ds) =
      if 1024 < bitLen (roundToDouble (ds.foldl (fun a d => a * 10 + d) 0)) then .inf false
      else .int (roundToDouble (ds.foldl (fun a d => a * 10 + d) 0)) := by
  cases ds with
  | nil => exact absurd rfl hne
  | cons d ds =>
    have hd := h d (List.mem_cons_self _ _)
    have hsp := isJsSpace_digitChar d hd
    have hminus : (Char.ofNat (48 + d) == '-') = false := by interval_cases d <;> rfl
    have hplus : (Char.ofNat (48 + d) == '+') = false := by interval_cases d <;> rfl
    have htake := takeDigits_digitChars (d :: ds) h
    have hdrop : (digitChars (d :: ds)).dropWhile isJsSpace = digitChars (d :: ds) := by
      simp [digitChars, List.dropWhile_cons, hsp]
    unfold parseIntChars
    simp only [hdrop]
    have hhead : (digitChars (d :: ds)).head? = some (Char.ofNat (48 + d)) := rfl
    simp only [hhead, Option.some_beq_some, hminus, hplus, Bool.or_self, Bool.false_eq_true,
      if_false]
    have hrest : ∀ c tail, digitChars ds = c :: tail → c ≠ 'x' ∧ c ≠ 'X' :=
      digitChars_head_ne ds (fun x hx => h x (List.mem_cons_of_mem _ hx))
    have hhex : (match digitChars (d :: ds) with
        | '0' :: 'x' :: _ => true
        | '0' :: 'X' :: _ => true
        | _ => false) = false := by
      split
      · rename_i tail heq
        simp only [digitChars, List.map_cons, List.cons.injEq] at heq
        exact absurd rfl (hrest _ _ heq.2).1
      · rename_i tail heq
        simp only [digitChars, List.map_cons, List.cons.injEq] at heq
        exact absurd rfl (hrest _ _ heq.2).2
      · rfl
    simp only [hhex, Bool.false_eq_true, if_false, htake]
    simp

theorem bitLenAux_le (fuel : Nat) : ∀ n k, n < 2 ^ k → bitLenAux fuel n ≤ k := by
  induction fuel with
  | zero => intro n k _; simp [bitLenAux]
  | succ fuel ih =>
    intro n k h
    unfold bitLenAux
    split
    · omega
    · cases k with
      | zero => simp at h; omega
      | succ k =>
        have := ih (n / 2) k (by rw [pow_succ] at h; omega)
        omega

/-- The decimal numeral of a natural number up to 2^53 is read back as that number. -/
theorem parseInt_decimal (n : Nat) (h : n ≤ 2 ^ 53) :
    parseIntChars (digitChars (decDigits n)) = .int n := by
  obtain ⟨h1, h2, h3⟩ := decDigits_spec n
  rw [parseIntChars_digitChars _ h1 h2, h3]
  have hr : roundToDouble n = n := by
    unfold roundToDouble
    rw [if_pos h]
  have hb : ¬ 1024 < bitLen n := by
    have := bitLenAux_le n n 54 (by
      have : (2:Nat) ^ 53 < 2 ^ 54 := by norm_num
      omega)
    unfold bitLen
    omega
  rw [hr, if_neg hb]

/-- A number up to 2^53 passed as the id argument is read as itself. -/
theorem parseInt_num (n : Nat) (h : n ≤ 2 ^ 53) : parseInt (.num n) = .int n := by
  have hlt : n < 10 ^ 21 := by
    have : (2:Nat) ^ 53 < 10 ^ 21 := by norm_num
    omega
  show parseIntChars (numberToString n) = .int n
  unfold numberToString
  rw [if_pos hlt]
  exact parseInt_decimal n h

/-- The decimal numeral of a number up to 2^53, passed as a string, is read as that
number. -/
theorem parseInt_str_decimal (n : Nat) (h : n ≤ 2 ^ 53) :
    parseInt (.str (String.mk (digitChars (decDigits n)))) = .int n :=
  parseInt_decimal n h

/-! ## Lemmas: what sanitizeInput leaves -/

theorem contains_iff_mem (l : List Char) (c : Char) : l.contains c = true ↔ c ∈ l := by
  unfold List.contains
  exact List.elem_iff

theorem hasTag_false_of_sublist {l1 l2 : List Char} (hsub : l1.Sublist l2)
    (h : hasTag l2 = false) : hasTag l1 = false := by
  induction hsub with
  | slnil => rfl
  | cons a _ ih =>
    simp only [hasTag, Bool.or_eq_false_iff] at h
    exact ih h.2
  | cons₂ a hs ih =>
    rename_i k1 k2
    simp only [hasTag, Bool.or_eq_false_iff, Bool.and_eq_false_imp, beq_iff_eq] at h ⊢
    refine ⟨fun ha => ?_, ih h.2⟩
    have hnot := h.1 ha
    cases hc : k1.contains '>' with
    | false => rfl
    | true =>
      have hmem : '>' ∈ k1 := (contains_iff_mem _ _).mp hc
      have : k2.contains '>' = true := (contains_iff_mem _ _).mpr (hs.subset hmem)
      rw [this] at hnot
      cases hnot

theorem stripTags_sublist (cs : List Char) : ∀ b, (stripTags b cs).Sublist cs := by
  induction cs with
  | nil => intro b; cases b <;> exact List.Sublist.slnil
  | cons c cs ih =>
    intro b
    cases b with
    | true =>
      unfold stripTags
      split
      · exact (ih false).cons c
      · exact (ih true).cons c
    | false =>
      unfold stripTags
      split
      · exact (ih true).cons c
      · exact (ih false).cons₂ c

theorem hasTag_stripTags (cs : List Char) : ∀ b, hasTag (stripTags b cs) = false := by
  induction cs with
  | nil => intro b; cases b <;> rfl
  | cons c cs ih =>
    intro b
    cases b with
    | true =>
      unfold stripTags
      split
      · exact ih false
      · exact ih true
    | false =>
      unfold stripTags
      split
      · exact ih true
      · rename_i hcond
        simp only [hasTag, Bool.or_eq_false_iff, Bool.and_eq_false_imp, beq_iff_eq]
        refine ⟨fun hc => ?_, ih false⟩
        cases hin : (stripTags false cs).contains '>' with
        | false => rfl
        | true =>
          exfalso
          have hmem : '>' ∈ stripTags false cs := (contains_iff_mem _ _).mp hin
          exact hcond ⟨hc, (stripTags_sublist cs false).subset hmem⟩

theorem stripTags_of_no_tag (cs : List Char) (h : hasTag cs = false) :
    stripTags false cs = cs := by
  induction cs with
  | nil => rfl
  | cons c cs ih =>
    simp only [hasTag, Bool.or_eq_false_iff, Bool.and_eq_false_imp, beq_iff_eq] at h
    unfold stripTags
    split
    · rename_i hcond
      have := h.1 hcond.1
      rw [(contains_iff_mem _ _).mpr hcond.2] at this
      cases this
    · rw [ih h.2]

theorem jsTrim_sublist (cs : List Char) : (jsTrim cs).Sublist cs := by
  rw [jsTrim_eq]
  exact (List.rdropWhile_prefix _ _).sublist.trans (List.dropWhile_sublist _)

theorem hasTag_false_iff (l : List Char) :
    hasTag l = false ↔ ∀ l1 l2, l = l1 ++ '<' :: l2 → '>' ∉ l2 := by
  induction l with
  | nil =>
    simp only [hasTag, true_iff]
    intro l1 l2 h
    cases l1 <;> cases h
  | cons c cs ih =>
    simp only [hasTag, Bool.or_eq_false_iff, Bool.and_eq_false_imp, beq_iff_eq]
    constructor
    · rintro ⟨h1, h2⟩ l1 l2 heq
      cases l1 with
      | nil =>
        simp only [List.nil_append, List.cons.injEq] at heq
        obtain ⟨rfl, rfl⟩ := heq
        intro hmem
        have := h1 rfl
        rw [(contains_iff_mem _ _).mpr hmem] at this
        cases this
      | cons a l1 =>
        simp only [List.cons_append, List.cons.injEq] at heq
        exact (ih.mp h2) l1 l2 heq.2
    · intro h
      refine ⟨fun hc => ?_, ih.mpr fun l1 l2 heq => h (c :: l1) l2 (by rw [heq]; rfl)⟩
      cases hin : cs.contains '>' with
      | false => rfl
      | true =>
        exact absurd ((contains_iff_mem _ _).mp hin) (h [] cs (by rw [hc]; rfl))

theorem sanitizeInput_data_str (s : String) :
    (sanitizeInput (.str s)).data = jsTrim (stripControl (stripTags false s.data)) := rfl

theorem hasTag_sanitizeInput (x : Arg) : hasTag (sanitizeInput x).data = false := by
  cases x with
  | undefined => rfl
  | num n => rfl
  | str s =>
    rw [sanitizeInput_data_str]
    exact hasTag_false_of_sublist
      ((jsTrim_sublist _).trans (List.filter_sublist _)) (hasTag_stripTags s.data false)

/-! ## C17: no markup tag survives sanitizeInput -/

/-- C17: in the output of sanitizeInput no `<` is followed, anywhere later, by a
`>`: however the output is cut as `l1 ++ '<' :: l2`, the part `l2` holds no `>`.
The script example of the spec and nested and overlapping brackets are instances. -/
theorem sanitizeInput_leaves_no_tag (x : Arg) :
    (∀ l1 l2, (sanitizeInput x).data = l1 ++ '<' :: l2 → '>' ∉ l2) ∧
      sanitizeInput (.str "<script>alert(1)</script>") = "alert(1)" ∧
      sanitizeInput (.str "<<b>script>x</script<i>>") = "script>x>" := by
  refine ⟨(hasTag_false_iff _).mp (hasTag_sanitizeInput x), by decide, by decide⟩

/-! ## C20: sanitizeInput applied twice -/

/-- C20: sanitizeInput is idempotent: applied to its own output it returns that
output. -/
theorem sanitizeInput_idempotent (x : Arg) :
    sanitizeInput (.str (sanitizeInput x)) = sanitizeInput x := by
  cases x with
  | undefined => decide
  | num n =>
    show sanitizeInput (.str "") = ""
    decide
  | str s =>
    have hdata := sanitizeInput_data_str s
    have htag : stripTags false (sanitizeInput (.str s)).data = (sanitizeInput (.str s)).data :=
      stripTags_of_no_tag _ (hasTag_sanitizeInput (.str s))
    have hctl : stripControl (sanitizeInput (.str s)).data = (sanitizeInput (.str s)).data := by
      unfold stripControl
      rw [List.filter_eq_self]
      intro c hc
      rw [hdata] at hc
      have hmem := (jsTrim_sublist _).subset hc
      unfold stripControl at hmem
      exact (List.mem_filter.mp hmem).2
    have htrim : jsTrim (sanitizeInput (.str s)).data = (sanitizeInput (.str s)).data := by
      rw [hdata, jsTrim_idem]
    show String.mk (jsTrim (stripControl (stripTags false (sanitizeInput (.str s)).data)))
      = sanitizeInput (.str s)
    rw [htag, hctl, htrim]

/-! ## C19: readTasks does not change the collection -/

/-- C19: on a data file that holds an array of valid records with pairwise distinct
ids, readTasks returns that array and leaves the world as it was; on an absent data
file it creates the file holding the empty array and returns the empty collection;
and whenever readTasks succeeds, a second readTasks right after returns the same
collection and changes nothing. -/
theorem readTasks_is_read_only (dateOk : Option Json → Bool) (w : World) :
    (∀ tasks, w.data = some (.json (.arr tasks)) →
      (∀ t ∈ tasks, validateTask dateOk t = .ok ()) →
      tasks.Pairwise (fun a b => a.get "id" ≠ b.get "id") →
      readTasks dateOk w = (.ok tasks, w)) ∧
    (w.data = none →
      readTasks dateOk w = (.ok [], ⟨w.cwd, some (.json (.arr [])), w.temp⟩)) ∧
    (∀ tasks, (readTasks dateOk w).1 = .ok tasks →
      readTasks dateOk (readTasks dateOk w).2 = (.ok tasks, (readTasks dateOk w).2)) := by
  refine ⟨?_, ?_, fun tasks h => readTasks_again dateOk w tasks h⟩
  · intro tasks hdata hvalid hdistinct
    rw [readTasks_stored dateOk w tasks hdata,
      (checkTasks_ok_iff dateOk tasks).mpr ⟨hvalid, hdistinct⟩]
  · intro hnone
    unfold readTasks
    simp only [validateFilePath_DATA_FILE, hnone]

/-- C19, instance: the first read of the test 'should create tasks.json on first
read', where the data file is absent. -/
theorem readTasks_is_read_only_witness :
    readTasks isoDateOk ⟨"/home/user/tracker", none, none⟩
      = (.ok [], ⟨"/home/user/tracker", some (.json (.arr [])), none⟩) :=
  (readTasks_is_read_only isoDateOk ⟨"/home/user/tracker", none, none⟩).2.1 rfl

/-! ## C18: the store after a record operation -/

theorem pairwise_id_replace (before after : List Json) (t t1 : Json)
    (hsame : t1.get "id" = t.get "id")
    (h : (before ++ t :: after).Pairwise (fun a b => a.get "id" ≠ b.get "id")) :
    (before ++ t1 :: after).Pairwise (fun a b => a.get "id" ≠ b.get "id") := by
  have hmap : (before ++ t1 :: after).map (fun r => r.get "id")
      = (before ++ t :: after).map (fun r => r.get "id") := by
    simp [hsame]
  have h1 := (List.pairwise_map (f := fun r : Json => r.get "id")
    (R := fun a b => a ≠ b) (l := before ++ t :: after)).mpr h
  rw [← hmap] at h1
  exact (List.pairwise_map (f := fun r : Json => r.get "id")
    (R := fun a b => a ≠ b) (l := before ++ t1 :: after)).mp h1

/-- After a successful updateTaskStatus the store loads again, as the collection
with the one record replaced. -/
theorem updateTaskStatus_keeps_store_loadable (dateOk : Option Json → Bool)
    (now : String) (w : World) (before after : List Json) (t : Json) (s : String)
    (hnow : dateOk (some (.str now)) = true)
    (hload : (readTasks dateOk w).1 = .ok (before ++ t :: after))
    (hs : s = "todo" ∨ s = "in-progress" ∨ s = "done") :
    (readTasks dateOk ⟨w.cwd, some (.json (.arr
        (before ++ (t.set "status" (.str s)).set "updatedAt" (.str now) :: after))), none⟩).1
      = .ok (before ++ (t.set "status" (.str s)).set "updatedAt" (.str now) :: after) := by
  obtain ⟨hvalid, hdistinct⟩ := readTasks_loaded dateOk w _ hload
  have hv1 := validateTask_updated dateOk t s now
    (hvalid t (List.mem_append_right _ (List.mem_cons_self _ _))) hs hnow
  have hsame : ((t.set "status" (.str s)).set "updatedAt" (.str now)).get "id" = t.get "id" := by
    rw [Json.get_set_other _ _ _ _ (by decide), Json.get_set_other _ _ _ _ (by decide)]
  rw [readTasks_of_stored_ok dateOk _ _ _ ?_ (pairwise_id_replace before after t _ hsame hdistinct)]
  intro r hr
  rcases List.mem_append.mp hr with h | h
  · exact hvalid r (List.mem_append_left _ h)
  · rcases List.mem_cons.mp h with rfl | h
    · exact hv1
    · exact hvalid r (List.mem_append_right _ (List.mem_cons_of_mem _ h))

/-- After a successful addTask on a store whose ids are all below 2^53 the store
loads again, as the collection with the new record appended. -/
theorem addTask_keeps_store_loadable_of_safe (dateOk : Option Json → Bool)
    (created updated : String) (w : World) (d : Arg) (tasks : List Json) (newId : Nat)
    (hload : (readTasks dateOk w).1 = .ok tasks)
    (hsafe : ∀ t ∈ tasks, idNat t < 2 ^ 53)
    (hadd : (addTask dateOk created updated w d).1 = .ok newId) :
    (readTasks dateOk (addTask dateOk created updated w d).2).1
      = .ok (tasks ++ [newTask newId (sanitizeInput d) created updated]) := by
  obtain ⟨hvalid, hdistinct⟩ := readTasks_loaded dateOk w _ hload
  obtain ⟨hnew, hw⟩ := addTask_ok_shape dateOk created updated w d tasks newId hload hadd
  obtain ⟨s, rfl, hpos, hmax, _⟩ := addTask_ok_inv dateOk created updated w _ newId hadd
  have hall : validateAll dateOk
      (tasks ++ [newTask newId (sanitizeInput (.str s)) created updated]) = .ok () := by
    have h := addTask_of_load dateOk created updated w s tasks hpos hmax hload
    rw [← hnew] at h
    cases hv : validateAll dateOk
      (tasks ++ [newTask newId (sanitizeInput (.str s)) created updated]) with
    | ok u => rfl
    | error e =>
      rw [hv] at h
      rw [h] at hadd
      cases hadd
  have hvalid1 := (validateAll_ok_iff dateOk _).mp hall
  have hlt : ∀ t ∈ tasks, idNat t < newId := by
    intro t ht
    have hge := (foldl_max_ge tasks 0).2 t ht
    rw [hnew, generateSecureId_of_safe tasks hsafe]
    omega
  have hdistinct1 : (tasks ++ [newTask newId (sanitizeInput (.str s)) created updated]).Pairwise
      (fun a b => a.get "id" ≠ b.get "id") := by
    rw [List.pairwise_append]
    refine ⟨hdistinct, List.pairwise_singleton _ _, ?_⟩
    intro a ha b hb heq
    rw [List.mem_singleton.mp hb] at heq
    have hidb : (newTask newId (sanitizeInput (.str s)) created updated).get "id"
        = some (.num (.int newId)) := by
      simp [newTask, Json.get, List.lookup]
    have hida : idNat a = newId := by
      unfold idNat
      rw [heq, hidb]
      simp
    have := hlt a ha
    omega
  rw [hw, readTasks_of_stored_ok dateOk _ _ _ hvalid1 hdistinct1]

/-- C18, at the failing input: the store holds ids 7 and 2^54 (18014398509481984)
and readTasks accepts it.  addTask succeeds, assigns 18014398509481984 again and
saves; the resulting store is rejected by readTasks. -/
theorem addTask_leaves_store_unloadable :
    readTasks isoDateOk
        (sampleWorld [sampleTask 7 "a" "done", sampleTask 18014398509481984 "b" "todo"])
      = (.ok [sampleTask 7 "a" "done", sampleTask 18014398509481984 "b" "todo"],
          sampleWorld [sampleTask 7 "a" "done", sampleTask 18014398509481984 "b" "todo"]) ∧
    (addTask isoDateOk sampleTime sampleTime
        (sampleWorld [sampleTask 7 "a" "done", sampleTask 18014398509481984 "b" "todo"])
        (.str "c")).1 = .ok 18014398509481984 ∧
    (readTasks isoDateOk (addTask isoDateOk sampleTime sampleTime
        (sampleWorld [sampleTask 7 "a" "done", sampleTask 18014398509481984 "b" "todo"])
        (.str "c")).2).1 = .error "Duplicate task ID found" :=
  ⟨rfl, rfl, rfl⟩

end TaskTracker
